import Mathlib

/-
Verification of the gitmanager build/store/publish pipeline.

This file gives a shallow embedding, in Lean, of the parts of the
gitmanager repository that the specification talks about:

  * util/files.py   : read_meta, rename, renames (atomic rename batch)
  * builder/builder.py : update_from_git (changed-file detection),
                         is_self_contained, store, publish, build_course
  * access/course.py : Parent.child_keys / child_categories and the
                       Course validators validate_keys / validate_categories

Filesystem effects are modelled by explicit state passing: a filesystem is
an association list from path to object, and each fallible OS operation
returns an Option/Except value.  Python exceptions are modelled as error
results that are threaded through the control flow exactly as the source
propagates them.
-/

/-! ## util/files.py : read_meta (lines 23-37)

A meta file is a sequence of lines; each line is a list of characters.
`read_meta` returns an empty mapping if the file does not exist; otherwise
it processes the lines containing the character = and unpacks
`l.split(sep)` into exactly two names, raising ValueError (modelled as
`.error ()`) when the split has a different length. -/

/-- The separator character used by read_meta, written once. -/
def eqChar : Char := ('=')

/-- Python str.split with a one-character separator: no collapsing of
empty fields, result has (number of separators + 1) parts. -/
def splitSep (sep : Char) : List Char → List (List Char)
  | [] => [[]]
  | c :: cs =>
    if c = sep then [] :: splitSep sep cs
    else
      match splitSep sep cs with
      | [] => [[c]]
      | p :: ps => (c :: p) :: ps

/-- Python str.strip: removes leading and trailing whitespace. -/
def stripWs (l : List Char) : List Char :=
  ((l.dropWhile Char.isWhitespace).reverse.dropWhile Char.isWhitespace).reverse

/-- Python dict assignment d[k] = v on an association list: replaces the
value of an existing key in place, otherwise appends the new pair. -/
def dictSet (m : List (List Char × List Char)) (k v : List Char) :
    List (List Char × List Char) :=
  match m with
  | [] => [(k, v)]
  | (k0, v0) :: rest =>
    if k0 = k then (k0, v) :: rest else (k0, v0) :: dictSet rest k v

/-- A meta file: either absent, or present with its list of lines. -/
inductive MetaFile where
  | absent
  | present (lines : List (List Char))

/-- The loop of read_meta over the lines of an existing file
(util/files.py lines 34-36): lines containing = are split on =; the
resulting parts are unpacked into key and value, which raises ValueError
(`.error ()`) unless there are exactly two parts. -/
def readMetaLines : List (List Char) → List (List Char × List Char) →
    Except Unit (List (List Char × List Char))
  | [], m => .ok m
  | l :: ls, m =>
    if eqChar ∈ l then
      match splitSep eqChar l with
      | [k, v] => readMetaLines ls (dictSet m (stripWs k) (stripWs v))
      | _ => .error ()
    else readMetaLines ls m

/-- read_meta (util/files.py lines 23-37). -/
def read_meta : MetaFile → Except Unit (List (List Char × List Char))
  | .absent => .ok []
  | .present lines => readMetaLines lines []

/-- Specification-level description of the resulting dictionary: for each
line with exactly one separator, the stripped text before the separator
maps to the stripped text after it. -/
def readMetaSpec (lines : List (List Char)) : List (List Char × List Char) :=
  (lines.filter (fun l => l.count eqChar = 1)).foldl
    (fun m l =>
      dictSet m (stripWs (l.takeWhile (fun c => c ≠ eqChar)))
        (stripWs ((l.dropWhile (fun c => c ≠ eqChar)).tail)))
    []

/-! ## builder/builder.py : update_from_git changed-file detection
(lines 96-122)

The ledger is scanned newest first, restricted to records whose status is
SUCCESS or FAILED.  `diff` abstracts util/git.py get_diff_names: it takes
a commit hash and an optional second hash (None meaning HEAD) and returns
the changed file set, or `none` on a git error. -/

/-- Status of a CourseUpdate record (builder/models.py). -/
inductive UpStatus where
  | pending
  | running
  | success
  | failed
  | skipped
deriving DecidableEq, Repr

instance : BEq UpStatus := ⟨fun a b => decide (a = b)⟩

/-- An update-ledger record as used by update_from_git. -/
structure UpdateRec where
  commit_hash : Option String
  status : UpStatus
deriving DecidableEq, Repr

/-- The update records the scan is restricted to (status in
(SUCCESS, FAILED), builder/builder.py lines 96-99). -/
def relevantRec (u : UpdateRec) : Bool :=
  u.status == UpStatus.success || u.status == UpStatus.failed

/-- The for-loop of update_from_git (builder/builder.py lines 103-122)
over the filtered records: breaks with `none` when a record has no commit
hash or the diff fails, accumulates the union of diffs, stops inclusively
at the first SUCCESS, and falls through to `none` (the for-else branch)
when no SUCCESS is reached. -/
def changedLoop (diff : String → Option String → Option (Finset String)) :
    List UpdateRec → Option String → Finset String → Option (Finset String)
  | [], _, _ => none
  | u :: rest, last, acc =>
    match u.commit_hash with
    | none => none
    | some h =>
      match diff h last with
      | none => none
      | some changed =>
        if u.status = UpStatus.success then some (acc ∪ changed)
        else changedLoop diff rest (some h) (acc ∪ changed)

/-- The changed-file computation of update_from_git: filter the ledger
(given newest first) to SUCCESS/FAILED records and run the scan loop
starting from an empty set with no previous hash. -/
def changed_files (diff : String → Option String → Option (Finset String))
    (ledger : List UpdateRec) : Option (Finset String) :=
  changedLoop diff (ledger.filter relevantRec) none ∅

/-- Index of the first SUCCESS record in a list. -/
def firstSuccessIdx : List UpdateRec → Option Nat
  | [] => none
  | u :: rest =>
    if u.status = UpStatus.success then some 0
    else (firstSuccessIdx rest).map (· + 1)

/-- All commit hashes of a list of records, or `none` if any record lacks
one. -/
def allHashes : List UpdateRec → Option (List String)
  | [] => some []
  | u :: rest =>
    match u.commit_hash with
    | none => none
    | some h => (allHashes rest).map (h :: ·)

/-- All pairwise diffs, or `none` if any diff fails. -/
def allDiffs (diff : String → Option String → Option (Finset String)) :
    List (String × Option String) → Option (List (Finset String))
  | [] => some []
  | (h, p) :: rest =>
    match diff h p with
    | none => none
    | some d => (allDiffs diff rest).map (d :: ·)

/-- Specification-level description of the scan, written from the spec
sentence: take the visited range up to and including the first SUCCESS; if
there is no SUCCESS, or some visited record lacks a commit hash, or some
pairwise diff fails, the result is unknown; otherwise it is exactly the
union of the pairwise diffs between consecutive commit hashes (the first
diff being against `last`). -/
def changedSpecFrom (diff : String → Option String → Option (Finset String))
    (us : List UpdateRec) (last : Option String) : Option (Finset String) :=
  match firstSuccessIdx us with
  | none => none
  | some i =>
    match allHashes (us.take (i + 1)) with
    | none => none
    | some hs =>
      (allDiffs diff (hs.zip (last :: hs.map some))).map
        (fun ds => ds.foldl (· ∪ ·) ∅)

/-- Specification-level changed-file computation on the full ledger. -/
def changedSpec (diff : String → Option String → Option (Finset String))
    (ledger : List UpdateRec) : Option (Finset String) :=
  changedSpecFrom diff (ledger.filter relevantRec) none

/-! ## util/files.py : rename and renames (lines 231-296)

The filesystem is an association list from path (String) to object.  An
object is a plain file or a directory, each carrying an identifier that
stands for its content.  os.rename moves the object at src to dst; it
fails when src does not exist, and when dst exists it only succeeds for a
plain-file-over-plain-file overwrite (POSIX rename onto a non-empty
directory fails; the empty placeholder created by tempfile.mkstemp or
mkdtemp, which the very next rename call replaces, is elided from the
model, so a rename onto the fresh temporary name is a rename onto a
non-existing path). -/

/-- A filesystem object: a plain file or a directory, with an identifier
standing for its content. -/
inductive FObj where
  | file (id : Nat)
  | dir (id : Nat)
deriving DecidableEq, Repr

/-- A filesystem: paths mapped to objects. -/
abbrev FS := List (String × FObj)

/-- Look up a path. -/
def fsGet (fs : FS) (p : String) : Option FObj :=
  match fs with
  | [] => none
  | (q, o) :: rest => if q = p then some o else fsGet rest p

/-- Remove a path. -/
def fsErase (fs : FS) (p : String) : FS :=
  match fs with
  | [] => []
  | (q, o) :: rest => if q = p then fsErase rest p else (q, o) :: fsErase rest p

/-- Bind a path to an object (removing any previous binding). -/
def fsSet (fs : FS) (p : String) (o : FObj) : FS :=
  fsErase fs p ++ [(p, o)]

/-- os.path.exists. -/
def fsExists (fs : FS) (p : String) : Bool :=
  (fsGet fs p).isSome

/-- os.path.isfile. -/
def fsIsFile (fs : FS) (p : String) : Bool :=
  match fsGet fs p with
  | some (.file _) => true
  | _ => false

/-- os.rename: `none` models a raised OSError. -/
def osRename (fs : FS) (src dst : String) : Option FS :=
  match fsGet fs src with
  | none => none
  | some o =>
    match fsGet fs dst with
    | none => some (fsSet (fsErase fs src) dst o)
    | some o2 =>
      match o, o2 with
      | .file _, .file _ => some (fsSet (fsErase fs src) dst o)
      | _, _ => none

/-- Rename state: the filesystem together with a counter making the next
temporary name fresh (tempfile names are unique). -/
structure RSt where
  fs : FS
  ctr : Nat
deriving DecidableEq, Repr

/-- The temporary sibling name produced by _tmp_path (util/files.py lines
231-242): a name next to dst derived from its name. -/
def tmpPath (dst : String) (ctr : Nat) : String :=
  dst ++ ".tmp" ++ toString ctr

/-- Result of rename: a normal return with the final state and the
returned optional temporary path, or a raised exception with the state at
the moment of the raise. -/
inductive RenameRes where
  | ok (st : RSt) (tmp : Option String)
  | err (st : RSt)
deriving DecidableEq, Repr

/-- rename (util/files.py lines 245-276), modelled branch for branch.
When dst does not exist or both src and dst are plain files: with
keep_tmp and an existing dst, dst is first moved aside to a temporary and
moved back if the rename of src fails; otherwise direct os.rename.
Otherwise dst is moved aside to a temporary, src is renamed onto dst, the
temporary is moved back on failure, and is deleted when keep_tmp is
false.  The final `return tmpdst` (line 276) returns the temporary name
whenever one was assigned, including the keep_tmp = false case of the
second branch.  With the mkstemp/mkdtemp placeholder elided, the
second-branch recovery rename after a failure of the very first rename
(which in the source moves the placeholder back over dst) is modelled as
the raise alone. -/
def rename (st : RSt) (src dst : String) (keepTmp : Bool) : RenameRes :=
  if !fsExists st.fs dst || (fsIsFile st.fs dst && fsIsFile st.fs src) then
    if keepTmp && fsExists st.fs dst then
      let tmp := tmpPath dst st.ctr
      match osRename st.fs dst tmp with
      | none => .err ⟨st.fs, st.ctr + 1⟩
      | some fs2 =>
        match osRename fs2 src dst with
        | some fs3 => .ok ⟨fs3, st.ctr + 1⟩ (some tmp)
        | none =>
          match osRename fs2 tmp dst with
          | some fs3 => .err ⟨fs3, st.ctr + 1⟩
          | none => .err ⟨fs2, st.ctr + 1⟩
    else
      match osRename st.fs src dst with
      | some fs2 => .ok ⟨fs2, st.ctr⟩ none
      | none => .err st
  else
    let tmp := tmpPath dst st.ctr
    match osRename st.fs dst tmp with
    | none => .err ⟨st.fs, st.ctr + 1⟩
    | some fs2 =>
      match osRename fs2 src dst with
      | none =>
        match osRename fs2 tmp dst with
        | some fs3 => .err ⟨fs3, st.ctr + 1⟩
        | none => .err ⟨fs2, st.ctr + 1⟩
      | some fs3 =>
        if keepTmp then .ok ⟨fs3, st.ctr + 1⟩ (some tmp)
        else .ok ⟨fsErase fs3 tmp, st.ctr + 1⟩ (some tmp)

/-- Result of renames: normal return carrying the final state and the
temporary paths scheduled for asynchronous deletion; a propagated
exception after the rollback loop; or the TypeError raised inside the
rollback loop by os.path.exists(None). -/
inductive RenamesRes where
  | ok (st : RSt) (tmps : List String)
  | raised (st : RSt)
  | typeError (st : RSt)
deriving DecidableEq, Repr

/-- The rollback loop of renames (util/files.py lines 289-294): for every
already-applied (src, dst, tmp) triple, rename dst back to src, then test
os.path.exists(tmp) and restore dst from tmp.  When tmp is None (the
original dst did not exist), os.path.exists(None) raises TypeError, which
propagates and aborts the rest of the rollback.  The source iterates a
Python set in unspecified (hash-randomized) order; this model fixes the
insertion order, which is one of the realizable orders. -/
def renamesRollback (st : RSt) :
    List (String × String × Option String) → RenamesRes
  | [] => .raised st
  | (src, dst, tmp) :: rest =>
    match rename st dst src false with
    | .err st2 => .raised st2
    | .ok st2 _ =>
      match tmp with
      | none => .typeError st2
      | some t =>
        if fsExists st2.fs t then
          match rename st2 t dst false with
          | .err st3 => .raised st3
          | .ok st3 _ => renamesRollback st3 rest
        else renamesRollback st2 rest

/-- The forward loop of renames (util/files.py lines 284-296): apply
rename with keep_tmp to each pair, remembering the displaced temporaries;
on the first failure run the rollback loop over the pairs done so far; on
total success hand the non-None temporaries to rm_paths_async. -/
def renamesGo (st : RSt) (pairs : List (String × String))
    (done : List (String × String × Option String)) : RenamesRes :=
  match pairs with
  | [] => .ok st (done.filterMap (fun d => d.2.2))
  | (src, dst) :: rest =>
    match rename st src dst true with
    | .ok st2 tmp => renamesGo st2 rest (done ++ [(src, dst, tmp)])
    | .err st2 => renamesRollback st2 done

/-- renames (util/files.py lines 279-296). -/
def renames (st : RSt) (pairs : List (String × String)) : RenamesRes :=
  renamesGo st pairs []

/-! ## builder/builder.py : publish (lines 413-483)

The three artifact paths of a stage (index config, exercise defaults,
version file) are modelled as the optional content of the corresponding
files; loading a stage config is abstracted as an Except value (ConfigError
on failure), and the grader-side errors of publish_graders as a list of
strings.  The success branch abstracts the renames call as the atomic move
of the three STORE artifacts onto PUBLISH (the internals of renames are
modelled separately above; the lock acquisitions around the stage
accesses are taken to succeed), followed by the asynchronous copys_async
backfill of STORE from PUBLISH, shown here in its completed state. -/

/-- The configuration source directories (access/config.py ConfigSource). -/
inductive CfgSource where
  | build
  | store
  | publish
deriving DecidableEq, Repr

/-- The stage config data publish looks at: its recorded version id
(CourseConfig.version_id, possibly absent). -/
structure LoadedConfig where
  version_id : Option String
deriving DecidableEq, Repr

/-- Contents of the three artifacts of one stage directory; `none` means
the file does not exist. -/
structure StageFiles where
  config : Option Nat
  defaults : Option Nat
  version : Option Nat
deriving DecidableEq, Repr

/-- The filesystem state publish manipulates: the STORE and PUBLISH
artifact triples. -/
structure PipelineState where
  store : StageFiles
  publish : StageFiles
deriving DecidableEq, Repr

/-- Outcome of publish: a normal return with the collected error list, or
a raised exception; both carry the final filesystem state. -/
inductive PublishResult where
  | ok (errors : List String) (st : PipelineState)
  | raised (msg : String) (st : PipelineState)
deriving DecidableEq, Repr

/-- The error message raised on a version mismatch (builder/builder.py
lines 470-475). -/
def versionMismatchMsg : String :=
  "Config version does not match the given version. Was the course updated while A+ was processing the config? Try importing the course again."

/-- publish (builder/builder.py lines 413-483).  `loadStore` and
`loadPub` are the results of CourseConfig.get on STORE and PUBLISH;
`graderErrors` is the list returned by publish_graders. -/
def publish (source : CfgSource) (version_id : Option String)
    (loadStore loadPub : Except String LoadedConfig)
    (graderErrors : List String) (st : PipelineState) : PublishResult :=
  match source with
  | .store =>
    match loadStore with
    | .error e =>
      .raised ("Failed to load newly built course for this reason: " ++ e) st
    | .ok cfg =>
      if cfg.version_id = version_id then
        let promoted : PipelineState :=
          { store := ⟨none, none, none⟩, publish := st.store }
        let backfilled : PipelineState :=
          { promoted with store := promoted.publish }
        .ok graderErrors backfilled
      else .raised versionMismatchMsg st
  | .publish =>
    match loadPub with
    | .error e =>
      .raised ("Failed to load already published config: " ++ e) st
    | .ok cfg =>
      if cfg.version_id = version_id then .ok graderErrors st
      else .raised versionMismatchMsg st
  | .build => .raised "Publishing from the build directory is not allowed" st

/-! ## builder/builder.py : store (lines 294-410)

configure_graders runs before the file lock is taken and a non-empty error
list returns False; acquiring the STORE lock may time out, which raises
out of store; inside the locked region the rsync of the static directory
may fail, which raises RuntimeError out of store (there is no try/except
around it); each referenced exercise file missing from BUILD is logged as
a warning and skipped, and the remaining ones are copied. -/

/-- A fault that escapes store as a raised exception. -/
inductive StoreFault where
  | lockTimeout
  | rsyncFailure
deriving DecidableEq, Repr

/-- Outcome of store: a normal boolean return (with the list of
referenced files actually copied), or a raised fault. -/
inductive StoreResult where
  | ret (success : Bool) (copied : List String)
  | raised (f : StoreFault)
deriving DecidableEq, Repr

/-- store (builder/builder.py lines 294-410).  `graderErrors` is the
error list from configure_graders; `lockTimeout` tells whether acquiring
the exclusive STORE FileLock times out; `rsyncOk` tells whether the rsync
of the static directory succeeds; `files` lists the referenced exercise
files together with whether each exists in BUILD. -/
def store (graderErrors : List String) (lockTimeout : Bool) (rsyncOk : Bool)
    (files : List (String × Bool)) : StoreResult :=
  match graderErrors with
  | _ :: _ => .ret false []
  | [] =>
    if lockTimeout then .raised .lockTimeout
    else if rsyncOk then .ret true ((files.filter (fun f => f.2)).map (fun f => f.1))
    else .raised .rsyncFailure

/-! ## access/course.py : the course tree and its validators

A course item (chapter, exercise, LTI exercise, exercise collection) has a
key, a category and children; a module has a key and children; a course
has declared categories and modules. -/

/-- A child item of a module or of another item. -/
inductive CItem where
  | mk (key : String) (category : String) (children : List CItem)

/-- Key of an item. -/
def itemKey : CItem → String
  | .mk k _ _ => k

/-- Category of an item. -/
def itemCategory : CItem → String
  | .mk _ c _ => c

/-- Children of an item. -/
def itemChildren : CItem → List CItem
  | .mk _ _ ch => ch

mutual

/-- Parent.child_keys (access/course.py lines 104-110) applied to a
children list: for each child, its key followed by its recursive child
keys. -/
def childKeysList : List CItem → List String
  | [] => []
  | c :: rest => childKeysOf c ++ childKeysList rest

/-- The keys contributed by one child: its own key and, recursively, the
keys of its children. -/
def childKeysOf : CItem → List String
  | .mk k _ ch => k :: childKeysList ch

end

/-- Parent.child_categories (access/course.py lines 96-102) applied to a
children list.  The loop adds each direct child category to the set; the
recursive call on line 101 is `categories.union(c.child_categories())`,
whose result (a new set) is discarded, so only the categories of the
direct children are collected.  The set is modelled as a duplicate-free
list in insertion order. -/
def child_categories (cs : List CItem) : List String :=
  cs.foldl
    (fun acc c =>
      if itemCategory c ∈ acc then acc else acc ++ [itemCategory c])
    []

mutual

/-- The recursive collection the child_categories docstring describes
(categories of children, recursively): every category appearing anywhere
in the subtree. -/
def descendantCategories : List CItem → List String
  | [] => []
  | c :: rest => descendantCategoriesOf c ++ descendantCategories rest

/-- Categories contributed by one child and all of its descendants. -/
def descendantCategoriesOf : CItem → List String
  | .mk _ cat ch => cat :: descendantCategories ch

end

/-- A course module (access/course.py Module): its key and children. -/
structure ModuleM where
  key : String
  children : List CItem

/-- The course-level data the validators read: declared categories and
the module list. -/
structure CourseM where
  categories : List String
  modules : List ModuleM

/-- Course.validate_keys (access/course.py lines 385-400): for each
module separately, the recursive key list of its children must have no
duplicate (the code compares len(keys) with the size of set(keys), which
differ exactly when the list has a duplicate).  Returns true when
validation passes, false when a ValueError is raised. -/
def validate_keys (c : CourseM) : Bool :=
  c.modules.all (fun m => decide (childKeysList m.children).Nodup)

/-- Course.validate_categories (access/course.py lines 377-383): for each
module, every category in m.child_categories() must be declared in the
course categories.  Returns true when validation passes, false when a
ValueError is raised. -/
def validate_categories (c : CourseM) : Bool :=
  c.modules.all
    (fun m => (child_categories m.children).all (fun cat => decide (cat ∈ c.categories)))

/-! ## builder/builder.py : build_course ledger phase (lines 534-561)

The ledger is given oldest first (ascending request_time, the order the
PENDING query returns after reversal of the pruning order).  build_course
first deletes all but the 10 most recent records, then among the
remaining PENDING records marks every one but the newest SKIPPED, and
marks the newest RUNNING (line 560, the first statement of the try
block). -/

/-- A CourseUpdate row as the ledger phase sees it. -/
structure URec where
  uid : Nat
  rtime : Nat
  status : UpStatus
deriving DecidableEq, Repr

/-- The per-record update applied after the newest PENDING record (of id
`chosenUid`) has been picked: that record becomes RUNNING, every other
PENDING record becomes SKIPPED, all others are untouched. -/
def markRec (chosenUid : Nat) (r : URec) : URec :=
  if r.uid = chosenUid then { r with status := UpStatus.running }
  else if r.status = UpStatus.pending then { r with status := UpStatus.skipped }
  else r

/-- The records that survive the pruning: the 10 with the largest request
times, i.e. the last 10 of the ascending ledger. -/
def keptRecords (ledger : List URec) : List URec :=
  ledger.drop (ledger.length - 10)

/-- The ledger phase of build_course (builder/builder.py lines 534-561):
prune to the 10 most recent records, collect the remaining PENDING
records in ascending request-time order, stop if there are none, else
skip all but the most recent and mark that one RUNNING.  Returns the
resulting ledger and the id of the record marked RUNNING, if any. -/
def build_course_ledger (ledger : List URec) : List URec × Option Nat :=
  let kept := keptRecords ledger
  match (kept.filter (fun r => r.status = UpStatus.pending)).getLast? with
  | none => (kept, none)
  | some chosen => (kept.map (markRec chosen.uid), some chosen.uid)

/-! ## builder/builder.py : is_self_contained (lines 281-291)

A filesystem is a tree of named entries rooted at the absolute root
directory; an entry is a plain file, a directory with its entries, or a
symlink carrying its raw target (absolute or relative).  Paths are lists
of name components, absolute from the tree root.  os.walk(path) is used
without followlinks, so entries classified as directories (following
symlinks for the classification, as os.scandir is_dir does) are listed
but symlinked directories are not descended into, and only the
non-directory entries are examined as files. -/

/-- A node of the filesystem tree. -/
inductive FsNode where
  | file
  | dir (entries : List (String × FsNode))
  | symlink (abs : Bool) (target : List String)

mutual

/-- Raw lookup of a path (no symlink resolution): follow directory
entries component by component. -/
def lookupFs : FsNode → List String → Option FsNode
  | e, [] => some e
  | .dir entries, c :: cs => lookupEntries entries c cs
  | .file, _ :: _ => none
  | .symlink _ _, _ :: _ => none

/-- Lookup of a name among directory entries, continuing with the rest of
the path. -/
def lookupEntries : List (String × FsNode) → String → List String → Option FsNode
  | [], _, _ => none
  | (n, e) :: rest, c, cs =>
    if n = c then lookupFs e cs else lookupEntries rest c cs

end

/-- One step bound used as resolution fuel. -/
def parentDir (p : List String) : List String :=
  p.dropLast

/-- Symlink resolution in the manner of os.path.realpath (non-strict):
process the remaining components left to right against the already
resolved absolute prefix; a symlink component splices its target in (from
the root when absolute, in place when relative); dot and dot-dot
components are collapsed; missing components are kept as-is.  The fuel
bounds the number of processed components; on exhaustion the remaining
components are appended unresolved (the loop-free trees of interest never
exhaust a generous fuel). -/
def resolveAux (fs : FsNode) : Nat → List String → List String → List String
  | _, acc, [] => acc
  | 0, acc, rest => acc ++ rest
  | fuel + 1, acc, c :: cs =>
    if c = "." then resolveAux fs fuel acc cs
    else if c = ".." then resolveAux fs fuel (parentDir acc) cs
    else
      match lookupFs fs (acc ++ [c]) with
      | some (.symlink ab tgt) =>
        if ab then resolveAux fs fuel [] (tgt ++ cs)
        else resolveAux fs fuel acc (tgt ++ cs)
      | _ => resolveAux fs fuel (acc ++ [c]) cs

mutual

/-- Size of a node, used to choose a sufficient resolution fuel. -/
def nodeSize : FsNode → Nat
  | .file => 1
  | .symlink _ t => 1 + t.length
  | .dir es => 1 + entriesSize es

/-- Size of a list of entries. -/
def entriesSize : List (String × FsNode) → Nat
  | [] => 0
  | (_, e) :: rest => 1 + nodeSize e + entriesSize rest

end

/-- Path.resolve on the model: resolve from the root with a fuel large
enough for every loop-free tree. -/
def resolveFs (fs : FsNode) (p : List String) : List String :=
  resolveAux fs ((nodeSize fs + p.length + 1) * (nodeSize fs + 1)) [] p

/-- Whether the entry at a path is classified as a directory by
os.scandir is_dir (which follows symlinks): its resolved path is a
directory of the tree. -/
def isDirLike (fs : FsNode) (p : List String) : Bool :=
  match lookupFs fs (resolveFs fs p) with
  | some (.dir _) => true
  | _ => false

/-- Whether the entry at a path is a symlink whose raw target is an
absolute path (os.path.islink together with os.path.isabs of
os.readlink). -/
def isAbsLink (fs : FsNode) (p : List String) : Bool :=
  match lookupFs fs p with
  | some (.symlink true _) => true
  | _ => false

/-- The names in a directory that os.walk reports as files: the entries
not classified as directories (symlinks to directories are classified as
directories and therefore not files). -/
def filesOf (fs : FsNode) (path : List String)
    (entries : List (String × FsNode)) : List String :=
  (entries.filter (fun e => !isDirLike fs (path ++ [e.1]))).map (fun e => e.1)

/-- os.walk from a directory with followlinks false: report this
directory with its file names, then walk the subdirectories in order.
Only raw directory entries are descended into; symlinks to directories
are listed but not followed.  The fuel bounds the recursion depth; the
caller passes the tree size, which no directory nesting can exceed. -/
def walkAux (fs : FsNode) : Nat → List String → List (String × FsNode) →
    List (List String × List String)
  | 0, path, entries => [(path, filesOf fs path entries)]
  | fuel + 1, path, entries =>
    (path, filesOf fs path entries) ::
      entries.flatMap (fun e =>
        match e.2 with
        | .dir es2 => walkAux fs fuel (path ++ [e.1]) es2
        | _ => [])

/-- os.walk(start): yields nothing unless start is a directory of the
tree. -/
def walkFrom (fs : FsNode) (start : List String) :
    List (List String × List String) :=
  match lookupFs fs start with
  | some (.dir es) => walkAux fs (nodeSize fs) start es
  | _ => []

/-- The per-file checks of is_self_contained (builder/builder.py lines
285-289) over the files of one walked directory, returning the first
violating path: the resolved real path must stay a descendant of the
root, and the file must not be a symlink with an absolute raw target. -/
def checkFiles (fs : FsNode) (root dirpath : List String) :
    List String → Option (List String)
  | [] => none
  | f :: rest =>
    if !(root.isPrefixOf (resolveFs fs (dirpath ++ [f]))) then
      some (dirpath ++ [f])
    else if isAbsLink fs (dirpath ++ [f]) then some (dirpath ++ [f])
    else checkFiles fs root dirpath rest

/-- The walk loop of is_self_contained, returning the first violating
path across the walked directories. -/
def checkWalk (fs : FsNode) (root : List String) :
    List (List String × List String) → Option (List String)
  | [] => none
  | (dp, fls) :: rest =>
    match checkFiles fs root dp fls with
    | some p => some p
    | none => checkWalk fs root rest

/-- is_self_contained (builder/builder.py lines 281-291): walk the tree
under the root and fail on the first file violating either check.  The
offending path stands in for the formatted error message of the source. -/
def is_self_contained (fs : FsNode) (root : List String) :
    Bool × Option (List String) :=
  match checkWalk fs root (walkFrom fs root) with
  | some p => (false, some p)
  | none => (true, none)

/-! ## Concrete instances used by the counterexamples and witnesses -/

/-- All chapter/exercise keys across the whole course tree (the
specification-level notion of course-wide key uniqueness). -/
def courseKeys (c : CourseM) : List String :=
  c.modules.flatMap (fun m => childKeysList m.children)

/-- A course whose two modules contain items with the same key. -/
def dupKeyCourse : CourseM :=
  { categories := ["x"],
    modules := [⟨"m1", [.mk "a" "x" []]⟩, ⟨"m2", [.mk "a" "x" []]⟩] }

/-- A course with a single module and no duplicate keys anywhere. -/
def okKeyCourse : CourseM :=
  { categories := ["x"],
    modules := [⟨"m1", [.mk "a" "x" [.mk "b" "x" []]]⟩] }

/-- A course whose chapter child (a grandchild of the module) references
the category b that is not declared at course level. -/
def deepCatCourse : CourseM :=
  { categories := ["a"],
    modules := [⟨"m", [.mk "c1" "a" [.mk "e1" "b" []]]⟩] }

/-- A filesystem whose course tree contains a symlink with an absolute
raw target pointing at a directory outside the course root. -/
def absDirLinkFs : FsNode :=
  .dir [("out", .dir []), ("course", .dir [("d", .symlink true ["out"])])]

/-- An ordinary nested course tree whose only symlink is relative and
stays inside the root. -/
def goodFs : FsNode :=
  .dir [("course",
    .dir [("ch", .dir [("f", .file)]), ("l", .symlink false ["ch", "f"])])]

/-- A ledger of eleven PENDING records, oldest first. -/
def elevenPending : List URec :=
  (List.range 11).map (fun i => ⟨i, i, UpStatus.pending⟩)

/-- A ledger of two PENDING records, oldest first. -/
def twoPending : List URec :=
  [⟨1, 1, UpStatus.pending⟩, ⟨2, 2, UpStatus.pending⟩]

/-! ## Theorems -/

/-- C1: publishing from STORE when the version id recorded in the loaded
STORE config does not equal the expected version id raises the
version-mismatch error and leaves the PUBLISH (and STORE) artifact state
exactly as it was before the call: no rename into PUBLISH happens. -/
theorem publish_store_version_mismatch (vid : Option String)
    (cfg : LoadedConfig) (loadPub : Except String LoadedConfig)
    (graderErrors : List String) (st : PipelineState)
    (h : cfg.version_id ≠ vid) :
    publish .store vid (.ok cfg) loadPub graderErrors st =
      .raised versionMismatchMsg st := by
  simp [publish, h]

/-- Witness for C1 at a concrete state: the mismatching publish raises
and returns the state unchanged. -/
theorem publish_store_version_mismatch_witness :
    (LoadedConfig.mk (some "new")).version_id ≠ some "old" ∧
    publish .store (some "old") (.ok ⟨some "new"⟩) (.error "x") []
        ⟨⟨some 1, some 2, some 3⟩, ⟨some 4, some 5, some 6⟩⟩ =
      .raised versionMismatchMsg
        ⟨⟨some 1, some 2, some 3⟩, ⟨some 4, some 5, some 6⟩⟩ :=
  ⟨by decide,
   publish_store_version_mismatch (some "old") ⟨some "new"⟩ (.error "x") []
     ⟨⟨some 1, some 2, some 3⟩, ⟨some 4, some 5, some 6⟩⟩ (by decide)⟩

/-- C7 counterexample: a failure of the rsync of the static directory
inside store is not a lock timeout, yet it escapes store as a raised
fault instead of producing the boolean failure return the claim
describes. -/
theorem store_rsync_raises :
    store [] false false [("f", true)] = .raised .rsyncFailure ∧
    StoreFault.rsyncFailure ≠ StoreFault.lockTimeout := by
  constructor
  · rfl
  · decide

/-- C7 amended: configure_graders errors make store return False before
any file work; a lock timeout raises; and on the successful path every
referenced file missing from BUILD is skipped (only the existing
referenced files are copied) without aborting the operation, while other
filesystem faults such as an rsync failure raise rather than returning
False. -/
theorem store_error_behaviour :
    (∀ (e : String) (es : List String) (lt rs : Bool)
        (fs : List (String × Bool)), store (e :: es) lt rs fs = .ret false []) ∧
    (∀ (rs : Bool) (fs : List (String × Bool)),
        store [] true rs fs = .raised .lockTimeout) ∧
    (∀ fs : List (String × Bool),
        store [] false true fs =
          .ret true ((fs.filter (fun f => f.2)).map (fun f => f.1))) ∧
    (∀ (fs : List (String × Bool)) (name : String), (name, true) ∉ fs →
        name ∉ (fs.filter (fun f => f.2)).map (fun f => f.1)) := by
  refine ⟨fun e es lt rs fs => rfl, fun rs fs => rfl, fun fs => rfl, ?_⟩
  intro fs name hnot hmem
  rcases List.mem_map.mp hmem with ⟨p, hp, hfst⟩
  rcases List.mem_filter.mp hp with ⟨hpfs, hsnd⟩
  cases p with
  | mk a b =>
    simp only at hfst hsnd
    subst hfst
    subst hsnd
    exact hnot hpfs

/-- Witness for C7 at concrete inputs: each behaviour of
store_error_behaviour realized. -/
theorem store_error_behaviour_witness :
    store ["e"] true true [("f", true)] = .ret false [] ∧
    store [] true false [] = .raised .lockTimeout ∧
    store [] false true [("f", true), ("g", false)] = .ret true ["f"] ∧
    "g" ∉ ([("f", true), ("g", false)].filter
        (fun f : String × Bool => f.2)).map (fun f => f.1) :=
  ⟨store_error_behaviour.1 "e" [] true true [("f", true)],
   store_error_behaviour.2.1 false [],
   (store_error_behaviour.2.2.1 [("f", true), ("g", false)]).trans (by rfl),
   store_error_behaviour.2.2.2 [("f", true), ("g", false)] "g" (by decide)⟩

/-- C2: the batched rename is not all-or-nothing.  Starting from a
filesystem holding files a, c and d, the batch (a to b), (c to d),
(e to f) fails at the third pair (e does not exist); the rollback first
reverses the (a, b, None) triple and then evaluates os.path.exists(None),
which raises TypeError, so the already-applied pair (c, d) is never
reversed: afterwards d holds the former content of c, c is gone, and the
former content of d sits at the retained temporary — a partially-applied
result observable after the call raises. -/
theorem renames_rollback_type_error :
    renames ⟨[("a", .file 1), ("c", .file 2), ("d", .file 3)], 0⟩
        [("a", "b"), ("c", "d"), ("e", "f")] =
      .typeError ⟨[("d.tmp0", .file 3), ("d", .file 2), ("a", .file 1)], 1⟩ ∧
    fsGet [("d.tmp0", FObj.file 3), ("d", FObj.file 2), ("a", FObj.file 1)]
        "c" = none ∧
    fsGet [("d.tmp0", FObj.file 3), ("d", FObj.file 2), ("a", FObj.file 1)]
        "d" = some (.file 2) ∧
    fsGet [("a", FObj.file 1), ("c", FObj.file 2), ("d", FObj.file 3)]
        "d" = some (.file 3) := by
  refine ⟨by rfl, by rfl, by rfl, by rfl⟩

/-- C8: with keep_tmp false and a destination that exists but is not a
plain file (here: both src and dst are directories), rename displaces the
destination to a temporary sibling, deletes it after the successful
rename, and still returns the temporary path — contradicting its own
docstring, which promises None whenever keep_tmp is false. -/
theorem rename_returns_tmp_despite_no_keep :
    rename ⟨[("s", .dir 1), ("t", .dir 2)], 0⟩ "s" "t" false =
      .ok ⟨[("t", .dir 1)], 1⟩ (some "t.tmp0") ∧
    some "t.tmp0" ≠ (none : Option String) := by
  refine ⟨by rfl, by decide⟩

/-- C5 counterexample: a course whose two modules contain items with the
same key "a" passes validate_keys although the key occurs at two
different places of the course tree (the course-wide key list has a
duplicate). -/
theorem validate_keys_cross_module_duplicate :
    validate_keys dupKeyCourse = true ∧
    ¬ (courseKeys dupKeyCourse).Nodup := by
  refine ⟨by rfl, by decide⟩

/-- C5 amended: validate_keys enforces chapter/exercise key uniqueness
within each module subtree separately — it passes exactly when, for every
module, the recursive key list of that module alone has no duplicate. -/
theorem validate_keys_iff_per_module (c : CourseM) :
    validate_keys c = true ↔
      ∀ m ∈ c.modules, (childKeysList m.children).Nodup := by
  simp [validate_keys]

/-- Witness for C5: a course with duplicate-free keys inside its single
module passes validate_keys via the characterisation. -/
theorem validate_keys_iff_per_module_witness :
    validate_keys okKeyCourse = true :=
  (validate_keys_iff_per_module okKeyCourse).mpr (by decide)

/-- C6: a category referenced only by a grandchild of a module escapes
validate_categories.  Parent.child_categories is documented to collect
categories recursively, but the recursive union on access/course.py line
101 is discarded (set.union returns a new set), so only direct children
are inspected: the course validates although category "b" is referenced
by a descendant item and not declared at course level. -/
theorem validate_categories_misses_grandchildren :
    validate_categories deepCatCourse = true ∧
    "b" ∈ descendantCategories [CItem.mk "c1" "a" [CItem.mk "e1" "b" []]] ∧
    "b" ∉ deepCatCourse.categories ∧
    "b" ∉ child_categories [CItem.mk "c1" "a" [CItem.mk "e1" "b" []]] := by
  refine ⟨by rfl, by decide, by decide, by decide⟩

/-- C9 counterexample: with eleven PENDING records queued, the oldest one
is pruned away before the skip marking, so it is deleted rather than
transitioned to SKIPPED: no record with its id remains in the resulting
ledger at all, although it was PENDING and not the newest. -/
theorem build_course_ledger_prunes_oldest_pending :
    elevenPending.head? = some ⟨0, 0, UpStatus.pending⟩ ∧
    (elevenPending.filter
        (fun r => r.status = UpStatus.pending)).length = 11 ∧
    ∀ r ∈ (build_course_ledger elevenPending).1, r.uid ≠ 0 := by
  refine ⟨by rfl, by rfl, by decide⟩

/-- Helper: in a list whose request times are strictly increasing, every
element's request time is at most that of the last element. -/
theorem rtime_le_getLast (l : List URec) :
    l.Pairwise (fun a b => a.rtime < b.rtime) →
    ∀ x ∈ l, ∀ y, l.getLast? = some y → x.rtime ≤ y.rtime := by
  induction l with
  | nil => intro _ x hx; exact absurd hx (List.not_mem_nil x)
  | cons a tl ih =>
    intro hp x hx y hy
    cases tl with
    | nil =>
      have hxa : x = a := by simpa using hx
      have hya : a = y := by simpa using hy
      simp [hxa, ← hya]
    | cons b tl2 =>
      rw [List.getLast?_cons_cons] at hy
      have hpc := List.pairwise_cons.mp hp
      rcases List.mem_cons.mp hx with rfl | hx2
      · exact le_of_lt (hpc.1 y (List.mem_of_mem_getLast? (by simp [hy])))
      · exact ih hpc.2 x hx2 y hy

/-- Helper: the skip/run marking never changes a record's id. -/
theorem markRec_uid (u : Nat) (r : URec) : (markRec u r).uid = r.uid := by
  unfold markRec
  split
  · rfl
  · split <;> rfl

/-- C9 amended: under the ledger phase of build_course, among the 10 most
recent records the newest PENDING record (and only it) is marked RUNNING,
every other surviving PENDING record is marked SKIPPED (and in particular
is never made RUNNING), and every record older than the 10 most recent is
deleted outright — it does not appear in the resulting ledger at all, so
a pruned PENDING record is never transitioned to SKIPPED. -/
theorem build_course_ledger_behaviour (ledger : List URec) (chosen : URec)
    (hnodup : (ledger.map URec.uid).Nodup)
    (hsorted : ledger.Pairwise (fun a b => a.rtime < b.rtime))
    (hchosen : ((keptRecords ledger).filter
        (fun r => r.status = UpStatus.pending)).getLast? = some chosen) :
    (build_course_ledger ledger).2 = some chosen.uid ∧
    (build_course_ledger ledger).1 =
      (keptRecords ledger).map (markRec chosen.uid) ∧
    (∀ r ∈ keptRecords ledger, r.status = UpStatus.pending →
        r.uid ≠ chosen.uid →
        { r with status := UpStatus.skipped } ∈ (build_course_ledger ledger).1) ∧
    (∀ r ∈ keptRecords ledger, r.uid ≠ chosen.uid →
        (markRec chosen.uid r).status ≠ UpStatus.running ∨
          r.status = UpStatus.running) ∧
    (∀ r ∈ keptRecords ledger, r.status = UpStatus.pending →
        r.rtime ≤ chosen.rtime) ∧
    (∀ r ∈ ledger.take (ledger.length - 10),
        ∀ r2 ∈ (build_course_ledger ledger).1, r2.uid ≠ r.uid) := by
  have hb : build_course_ledger ledger =
      ((keptRecords ledger).map (markRec chosen.uid), some chosen.uid) := by
    simp only [build_course_ledger, hchosen]
  refine ⟨by rw [hb], by rw [hb], ?_, ?_, ?_, ?_⟩
  · intro r hr hpend hne
    have hmr : markRec chosen.uid r = { r with status := UpStatus.skipped } := by
      unfold markRec
      rw [if_neg hne, if_pos hpend]
    rw [hb]
    exact hmr ▸ List.mem_map_of_mem (markRec chosen.uid) hr
  · intro r _ hne
    unfold markRec
    rw [if_neg hne]
    by_cases hp : r.status = UpStatus.pending
    · rw [if_pos hp]
      left
      intro hcon
      exact absurd hcon (by simp)
    · rw [if_neg hp]
      by_cases hr2 : r.status = UpStatus.running
      · exact Or.inr hr2
      · exact Or.inl hr2
  · intro r hr hpend
    have hmemf : r ∈ (keptRecords ledger).filter
        (fun r => r.status = UpStatus.pending) :=
      List.mem_filter.mpr ⟨hr, decide_eq_true hpend⟩
    have hsk : (keptRecords ledger).Pairwise (fun a b => a.rtime < b.rtime) :=
      hsorted.sublist (List.drop_sublist _ _)
    have hsf : ((keptRecords ledger).filter
        (fun r => r.status = UpStatus.pending)).Pairwise
          (fun a b => a.rtime < b.rtime) :=
      hsk.sublist (List.filter_sublist _)
    exact rtime_le_getLast _ hsf r hmemf chosen hchosen
  · intro r hr r2 hr2
    rw [hb] at hr2
    rcases List.mem_map.mp hr2 with ⟨r3, hr3, rfl⟩
    rw [markRec_uid]
    intro he
    have hsplit : ledger.map URec.uid =
        (ledger.take (ledger.length - 10)).map URec.uid ++
          (ledger.drop (ledger.length - 10)).map URec.uid := by
      rw [← List.map_append, List.take_append_drop]
    have hdisj : ((ledger.take (ledger.length - 10)).map URec.uid).Disjoint
        ((ledger.drop (ledger.length - 10)).map URec.uid) :=
      List.disjoint_of_nodup_append (by rwa [hsplit] at hnodup)
    exact hdisj (List.mem_map_of_mem URec.uid hr)
      (he ▸ List.mem_map_of_mem URec.uid hr3)

/-- Witness for C9 at a concrete two-record ledger: the newer PENDING
record is the one marked RUNNING. -/
theorem build_course_ledger_behaviour_witness :
    (build_course_ledger twoPending).2 = some 2 :=
  (build_course_ledger_behaviour twoPending ⟨2, 2, UpStatus.pending⟩
    (by decide) (by decide) (by decide)).1

/-- Helper: the per-directory file check passes exactly when every file
of the directory resolves inside the root and is not an absolute-target
symlink. -/
theorem checkFiles_eq_none_iff (fs : FsNode) (root dp : List String)
    (fls : List String) :
    checkFiles fs root dp fls = none ↔
      ∀ f ∈ fls, root.isPrefixOf (resolveFs fs (dp ++ [f])) = true ∧
        isAbsLink fs (dp ++ [f]) = false := by
  induction fls with
  | nil => simp [checkFiles]
  | cons f rest ih =>
    unfold checkFiles
    cases hb : root.isPrefixOf (resolveFs fs (dp ++ [f]))
    · simp only [Bool.not_false, if_true]
      constructor
      · intro h
        exact absurd h (by simp)
      · intro h
        have hf := (h f (List.mem_cons_self f rest)).1
        rw [hb] at hf
        exact absurd hf (by simp)
    · simp only [Bool.not_true, Bool.false_eq_true, if_false]
      cases hab : isAbsLink fs (dp ++ [f])
      · simp only [Bool.false_eq_true, if_false]
        rw [ih]
        constructor
        · intro h g hg
          rcases List.mem_cons.mp hg with rfl | hg2
          · exact ⟨hb, hab⟩
          · exact h g hg2
        · intro h g hg
          exact h g (List.mem_cons_of_mem f hg)
      · simp only [if_true]
        constructor
        · intro h
          exact absurd h (by simp)
        · intro h
          have hf := (h f (List.mem_cons_self f rest)).2
          rw [hab] at hf
          exact absurd hf (by simp)

/-- Helper: the walk check passes exactly when every walked directory
passes the per-directory check. -/
theorem checkWalk_eq_none_iff (fs : FsNode) (root : List String)
    (ws : List (List String × List String)) :
    checkWalk fs root ws = none ↔
      ∀ p ∈ ws, checkFiles fs root p.1 p.2 = none := by
  induction ws with
  | nil => simp [checkWalk]
  | cons w rest ih =>
    cases w with
    | mk dp fls =>
      unfold checkWalk
      cases hc : checkFiles fs root dp fls <;> simp [hc, ih]

/-- C4 amended: is_self_contained examines exactly the entries os.walk
reports as files when directory symlinks are not followed — regular files
and symlinks that do not resolve to directories — and succeeds precisely
when every such examined file resolves to a descendant of the root and is
not a symlink with an absolute raw target.  Symlinks that resolve to
directories (even absolute ones, or ones resolving outside the root) are
neither examined nor descended into. -/
theorem is_self_contained_iff (fs : FsNode) (root : List String) :
    (is_self_contained fs root).1 = true ↔
      ∀ p ∈ walkFrom fs root, ∀ f ∈ p.2,
        root.isPrefixOf (resolveFs fs (p.1 ++ [f])) = true ∧
        isAbsLink fs (p.1 ++ [f]) = false := by
  have hstep : (is_self_contained fs root).1 = true ↔
      checkWalk fs root (walkFrom fs root) = none := by
    unfold is_self_contained
    cases h : checkWalk fs root (walkFrom fs root) <;> simp
  rw [hstep, checkWalk_eq_none_iff]
  constructor
  · intro h p hp
    exact (checkFiles_eq_none_iff fs root p.1 p.2).mp (h p hp)
  · intro h p hp
    exact (checkFiles_eq_none_iff fs root p.1 p.2).mpr (h p hp)

/-- Witness for C4: an ordinary nested course tree whose one relative
symlink stays inside the root is accepted, through the
characterisation. -/
theorem is_self_contained_iff_witness :
    (is_self_contained goodFs ["course"]).1 = true :=
  (is_self_contained_iff goodFs ["course"]).mpr (by decide)

/-- C4 counterexample: a course tree containing a symlink whose raw
target is the absolute path of a directory outside the root is accepted
by is_self_contained — os.walk classifies the symlink as a directory
(is_dir follows symlinks), so it lands in the directory list it never
examines, and with followlinks disabled it is not descended into
either. -/
theorem is_self_contained_accepts_abs_dir_link :
    is_self_contained absDirLinkFs ["course"] = (true, none) ∧
    isAbsLink absDirLinkFs ["course", "d"] = true := by
  refine ⟨by decide, by decide⟩

/-- Helper: a split produces one more part than there are separators. -/
theorem splitSep_length (sep : Char) (l : List Char) :
    (splitSep sep l).length = l.count sep + 1 := by
  induction l with
  | nil => rfl
  | cons c cs ih =>
    unfold splitSep
    by_cases hc : c = sep
    · rw [if_pos hc]
      simp [List.count_cons, hc, ih]
    · rw [if_neg hc]
      cases hsp : splitSep sep cs with
      | nil => rw [hsp] at ih; simp at ih
      | cons p ps =>
        rw [hsp] at ih
        simp only [List.length_cons] at ih ⊢
        simp [List.count_cons, hc, ih]

/-- Helper: with no separator at all the split returns the whole line. -/
theorem splitSep_count_zero (sep : Char) (l : List Char)
    (h : l.count sep = 0) : splitSep sep l = [l] := by
  induction l with
  | nil => rfl
  | cons c cs ih =>
    have hc : ¬ c = sep := by
      intro hcs
      simp [List.count_cons, hcs] at h
    have hcs0 : cs.count sep = 0 := by
      simp [List.count_cons, hc] at h
      omega
    unfold splitSep
    rw [if_neg hc, ih hcs0]

/-- Helper: with exactly one separator the split returns the part before
it and the part after it. -/
theorem splitSep_count_one (l : List Char) (h : l.count eqChar = 1) :
    splitSep eqChar l =
      [l.takeWhile (fun c => c ≠ eqChar),
       (l.dropWhile (fun c => c ≠ eqChar)).tail] := by
  induction l with
  | nil => simp at h
  | cons c cs ih =>
    by_cases hc : c = eqChar
    · have hcs0 : cs.count eqChar = 0 := by
        simp [List.count_cons, hc] at h
        omega
      unfold splitSep
      rw [if_pos hc, splitSep_count_zero eqChar cs hcs0]
      subst hc
      simp [List.takeWhile, List.dropWhile]
    · have hcs1 : cs.count eqChar = 1 := by
        simp [List.count_cons, hc] at h
        omega
      unfold splitSep
      rw [if_neg hc, ih hcs1]
      simp [List.takeWhile_cons, List.dropWhile_cons, hc]

/-- Helper: on lines whose separator count never exceeds one, the
read_meta loop succeeds and builds exactly the specified dictionary. -/
theorem readMetaLines_ok (lines : List (List Char)) :
    ∀ m, (∀ l ∈ lines, l.count eqChar ≤ 1) →
      readMetaLines lines m =
        .ok ((lines.filter (fun l => l.count eqChar = 1)).foldl
          (fun m l =>
            dictSet m (stripWs (l.takeWhile (fun c => c ≠ eqChar)))
              (stripWs ((l.dropWhile (fun c => c ≠ eqChar)).tail)))
          m) := by
  induction lines with
  | nil => intro m _; rfl
  | cons l ls ih =>
    intro m h
    by_cases hmem : eqChar ∈ l
    · have hc1 : l.count eqChar = 1 := by
        have := h l (List.mem_cons_self l ls)
        have hpos := List.count_pos_iff.mpr hmem
        omega
      unfold readMetaLines
      rw [if_pos hmem, splitSep_count_one l hc1]
      refine (ih _ (fun g hg => h g (List.mem_cons_of_mem l hg))).trans ?_
      simp [List.filter_cons, hc1]
    · have hc0 : l.count eqChar = 0 := List.count_eq_zero.mpr hmem
      unfold readMetaLines
      rw [if_neg hmem]
      rw [ih _ (fun g hg => h g (List.mem_cons_of_mem l hg))]
      simp [List.filter_cons, hc0]

/-- Helper: as soon as some line carries two or more separators, the
read_meta loop raises the unpacking ValueError. -/
theorem readMetaLines_error (lines : List (List Char)) :
    ∀ m, (∃ l ∈ lines, 2 ≤ l.count eqChar) →
      readMetaLines lines m = .error () := by
  induction lines with
  | nil => intro m h; simp at h
  | cons l ls ih =>
    intro m h
    by_cases hbad : 2 ≤ l.count eqChar
    · have hmem : eqChar ∈ l := by
        apply List.count_pos_iff.mp
        omega
      have hlen : (splitSep eqChar l).length = l.count eqChar + 1 :=
        splitSep_length eqChar l
      unfold readMetaLines
      rw [if_pos hmem]
      cases hsp : splitSep eqChar l with
      | nil => rfl
      | cons k tl =>
        cases tl with
        | nil => rfl
        | cons v tl2 =>
          cases tl2 with
          | nil =>
            rw [hsp] at hlen
            simp only [List.length_cons, List.length_nil] at hlen
            omega
          | cons w tl3 => rfl
    · rcases h with ⟨g, hg, hgc⟩
      have hgls : g ∈ ls := by
        rcases List.mem_cons.mp hg with rfl | h2
        · exact absurd hgc hbad
        · exact h2
      unfold readMetaLines
      by_cases hmem : eqChar ∈ l
      · rw [if_pos hmem]
        cases hsp : splitSep eqChar l with
        | nil => rfl
        | cons k tl =>
          cases tl with
          | nil => rfl
          | cons v tl2 =>
            cases tl2 with
            | nil => exact ih _ ⟨g, hgls, hgc⟩
            | cons w tl3 => rfl
      · rw [if_neg hmem]
        exact ih _ ⟨g, hgls, hgc⟩

/-- C10: reading a per-directory metadata file is total exactly on
well-formed input — an absent file yields the empty mapping; when every
line containing the separator has exactly one of it (count at most one
overall), read_meta returns the dictionary of stripped key/value pairs;
and when any line carries two or more separators, read_meta raises the
unpacking ValueError instead of returning a result. -/
theorem read_meta_characterisation :
    (read_meta .absent = .ok []) ∧
    (∀ lines, (∀ l ∈ lines, l.count eqChar ≤ 1) →
        read_meta (.present lines) = .ok (readMetaSpec lines)) ∧
    (∀ lines, (∃ l ∈ lines, 2 ≤ l.count eqChar) →
        read_meta (.present lines) = .error ()) := by
  refine ⟨rfl, ?_, ?_⟩
  · intro lines h
    unfold read_meta readMetaSpec
    exact readMetaLines_ok lines [] h
  · intro lines h
    unfold read_meta
    exact readMetaLines_error lines [] h

/-- Witness for C10: a concrete well-formed file produces its stripped
dictionary, and a concrete file with a double-separator line raises. -/
theorem read_meta_characterisation_witness :
    read_meta (.present [String.toList "k = v"]) =
      .ok (readMetaSpec [String.toList "k = v"]) ∧
    read_meta (.present [String.toList "a = b = c"]) = .error () :=
  ⟨read_meta_characterisation.2.1 [String.toList "k = v"] (by decide),
   read_meta_characterisation.2.2 [String.toList "a = b = c"]
     ⟨String.toList "a = b = c", by decide, by decide⟩⟩

/-- Helper: unfolding equation for firstSuccessIdx on a cons cell. -/
theorem firstSuccessIdx_cons (u : UpdateRec) (rest : List UpdateRec) :
    firstSuccessIdx (u :: rest) =
      if u.status = UpStatus.success then some 0
      else (firstSuccessIdx rest).map (· + 1) := rfl

/-- Helper: unfolding equation for allHashes on the empty list. -/
theorem allHashes_nil : allHashes [] = some [] := rfl

/-- Helper: unfolding equation for allDiffs on the empty list. -/
theorem allDiffs_nil (diff : String → Option String → Option (Finset String)) :
    allDiffs diff [] = some [] := rfl

/-- Helper: unfolding equation for allHashes on a cons cell. -/
theorem allHashes_cons (u : UpdateRec) (rest : List UpdateRec) :
    allHashes (u :: rest) =
      match u.commit_hash with
      | none => none
      | some h => (allHashes rest).map (h :: ·) := rfl

/-- Helper: unfolding equation for allDiffs on a cons cell. -/
theorem allDiffs_cons (diff : String → Option String → Option (Finset String))
    (h : String) (p : Option String) (rest : List (String × Option String)) :
    allDiffs diff ((h, p) :: rest) =
      match diff h p with
      | none => none
      | some d => (allDiffs diff rest).map (d :: ·) := rfl

/-- Helper: unfolding equation for changedLoop on a cons cell. -/
theorem changedLoop_cons (diff : String → Option String → Option (Finset String))
    (u : UpdateRec) (rest : List UpdateRec) (last : Option String)
    (acc : Finset String) :
    changedLoop diff (u :: rest) last acc =
      match u.commit_hash with
      | none => none
      | some h =>
        match diff h last with
        | none => none
        | some changed =>
          if u.status = UpStatus.success then some (acc ∪ changed)
          else changedLoop diff rest (some h) (acc ∪ changed) := rfl

/-- Helper: a union accumulated into a fold factors out. -/
theorem union_foldl (ds : List (Finset String)) :
    ∀ a b : Finset String,
      ds.foldl (· ∪ ·) (a ∪ b) = a ∪ ds.foldl (· ∪ ·) b := by
  induction ds with
  | nil => intro a b; simp
  | cons d tl ih =>
    intro a b
    simp only [List.foldl_cons]
    rw [Finset.union_assoc]
    exact ih a (b ∪ d)

/-- Helper: the one-step unfolding of the specification function on a
record that is not a SUCCESS and carries a commit hash. -/
theorem changedSpecFrom_cons_step
    (diff : String → Option String → Option (Finset String))
    (u : UpdateRec) (rest : List UpdateRec) (last : Option String)
    (h : String) (hch : u.commit_hash = some h)
    (hs : ¬ u.status = UpStatus.success) :
    changedSpecFrom diff (u :: rest) last =
      match diff h last with
      | none => none
      | some d =>
        (changedSpecFrom diff rest (some h)).map (fun s => d ∪ s) := by
  cases hidx : firstSuccessIdx rest with
  | none =>
    cases hd : diff h last <;>
      simp [changedSpecFrom, firstSuccessIdx_cons, hs, hidx, hd]
  | some j =>
    cases hah : allHashes (rest.take (j + 1)) with
    | none =>
      cases hd : diff h last <;>
        simp [changedSpecFrom, firstSuccessIdx_cons, hs, hidx, hch, hah, hd,
          List.take_succ_cons, allHashes_cons]
    | some hs2 =>
      cases hd : diff h last with
      | none =>
        simp [changedSpecFrom, firstSuccessIdx_cons, hs, hidx, hch, hah, hd,
          List.take_succ_cons, allHashes_cons, allDiffs_cons,
          List.zip_cons_cons]
      | some d =>
        cases had : allDiffs diff (hs2.zip (some h :: hs2.map some)) with
        | none =>
          simp [changedSpecFrom, firstSuccessIdx_cons, hs, hidx, hch, hah,
            hd, had, List.take_succ_cons, allHashes_cons, allDiffs_cons,
            List.zip_cons_cons]
        | some ds =>
          have hfold := union_foldl ds d ∅
          rw [Finset.union_empty] at hfold
          simp [changedSpecFrom, firstSuccessIdx_cons, hs, hidx, hch, hah,
            hd, had, List.take_succ_cons, allHashes_cons, allDiffs_cons,
            List.zip_cons_cons, hfold]

/-- C3: the changed-file computation of update_from_git equals its
specification — the union of the pairwise diffs of consecutive commit
hashes over the SUCCESS/FAILED records, scanned newest first up to and
including the first SUCCESS, and unknown (none) whenever there is no
SUCCESS in the range, a visited record lacks a commit hash, or a diff
fails; never a partial union. -/
theorem changed_files_eq_spec
    (diff : String → Option String → Option (Finset String))
    (ledger : List UpdateRec) :
    changed_files diff ledger = changedSpec diff ledger := by
  have main : ∀ (us : List UpdateRec) (last : Option String)
      (acc : Finset String),
      changedLoop diff us last acc =
        (changedSpecFrom diff us last).map (fun s => acc ∪ s) := by
    intro us
    induction us with
    | nil => intro last acc; rfl
    | cons u rest ih =>
      intro last acc
      cases hch : u.commit_hash with
      | none =>
        have hspec : changedSpecFrom diff (u :: rest) last = none := by
          by_cases hs : u.status = UpStatus.success
          · simp [changedSpecFrom, firstSuccessIdx_cons, hs, hch,
              List.take_succ_cons, allHashes_cons]
          · cases hidx : firstSuccessIdx rest with
            | none =>
              simp [changedSpecFrom, firstSuccessIdx_cons, hs, hidx]
            | some j =>
              simp [changedSpecFrom, firstSuccessIdx_cons, hs, hidx, hch,
                List.take_succ_cons, allHashes_cons]
        rw [changedLoop_cons, hspec]
        simp [hch]
      | some h =>
        by_cases hs : u.status = UpStatus.success
        · have hspec : changedSpecFrom diff (u :: rest) last =
              match diff h last with
              | none => none
              | some d => some (∅ ∪ d) := by
            cases hd : diff h last with
            | none =>
              simp [changedSpecFrom, firstSuccessIdx_cons, hs, hch, hd,
                List.take_succ_cons, allHashes_cons, allHashes_nil,
                allDiffs_cons, allDiffs_nil, List.zip_cons_cons]
            | some d =>
              simp [changedSpecFrom, firstSuccessIdx_cons, hs, hch, hd,
                List.take_succ_cons, allHashes_cons, allHashes_nil,
                allDiffs_cons, allDiffs_nil, List.zip_cons_cons]
          rw [changedLoop_cons, hspec]
          cases hd : diff h last with
          | none => simp [hch, hd]
          | some d => simp [hch, hd, hs, Finset.empty_union]
        · rw [changedLoop_cons,
            changedSpecFrom_cons_step diff u rest last h hch hs]
          cases hd : diff h last with
          | none => simp [hch, hd]
          | some d =>
            simp only [hch, hd]
            rw [if_neg hs, ih (some h) (acc ∪ d)]
            cases hrest : changedSpecFrom diff rest (some h) with
            | none => rfl
            | some s =>
              simp [Finset.union_assoc]
  unfold changed_files changedSpec
  rw [main]
  cases hsp : changedSpecFrom diff (ledger.filter relevantRec) none with
  | none => rfl
  | some s => simp [Finset.empty_union]
